import Mathlib

/-!
# Verification of the lgrep multi-project semantic code-search kernel

This file is a shallow embedding of the parts of the `lgrep` code base
(`src/lgrep/storage.py`, `indexing.py`, `chunking.py`, `embeddings.py`,
`server.py`) that the testable properties of its specification talk about,
followed by theorems settling those properties.

Conventions of the embedding:
* Pure Python functions become Lean functions on `String` / `List Char` /
  `Nat` / `ℚ`.
* External dependencies (the SHA-256 routine, the file system, the Chonkie
  AST chunker, the Voyage embedding API, the random jitter source) are
  parameters of the functions that call them, exactly at the call sites the
  source uses them.
* Stateful objects (`ChunkStore`, the server registry, the single-flight
  notification map) become explicit state records, with step relations for
  the concurrent parts; events that matter to a claim (index builds,
  embedding calls, store writes) are recorded in explicit event traces.
* Wall-clock durations are not modelled; `duration_ms` fields are carried
  as data but always computed as `0`.
-/

namespace Lgrep

/-! ## storage.py: SQL string escaping and the LanceDB predicate

`_escape_sql_string` (storage.py lines 38-45) doubles single quotes.
`delete_by_file` (lines 235-251) interpolates the escaped path into the
raw SQL predicate `file_path = '<escaped>'` that it hands to
`table.delete`.  We model the engine's side of the contract — how a SQL
string literal is lexed (quote-doubling un-escaped) and how the resulting
equality predicate selects rows — so that the escape law can be stated
end to end. -/

/-- Python `value.replace("'", "''")` on the character list of the value. -/
def escChars : List Char → List Char
  | [] => []
  | c :: rest => if c = '\'' then '\'' :: '\'' :: escChars rest else c :: escChars rest

/-- `_escape_sql_string` from storage.py: double every single quote. -/
def escapeSqlString (value : String) : String :=
  ⟨escChars value.data⟩

/-- Lex the body of a SQL single-quoted string literal (the opening quote
already consumed): a doubled quote stands for one quote character, a lone
quote terminates the literal.  Returns the literal's content and the rest
of the input, or `none` if the literal is unterminated. -/
def sqlLitLex : List Char → Option (List Char × List Char)
  | [] => none
  | '\'' :: '\'' :: rest2 => (sqlLitLex rest2).map (fun p => ('\'' :: p.1, p.2))
  | '\'' :: rest => some ([], rest)
  | c :: rest => (sqlLitLex rest).map (fun p => (c :: p.1, p.2))

/-- Strip an expected literal prefix from a character list. -/
def stripLit : List Char → List Char → Option (List Char)
  | [], s => some s
  | _ :: _, [] => none
  | p :: ps, c :: cs => if c = p then stripLit ps cs else none

/-- Parse the exact predicate shape `delete_by_file` builds:
`file_path = '<literal>'`, with nothing following.  Yields the file path
the engine will compare against. -/
def parseDeletePredicate (pred : String) : Option String :=
  match stripLit "file_path = '".data pred.data with
  | none => none
  | some rest =>
    match sqlLitLex rest with
    | some (content, []) => some ⟨content⟩
    | _ => none

/-- One stored row of the `chunks` table (the `CodeChunk` model of
storage.py; the embedding vector is carried as opaque data). -/
structure StoredChunk where
  id : String
  file_path : String
  chunk_index : Nat
  start_line : Nat
  end_line : Nat
  content : String
  vector : List Int
  file_hash : String
  indexed_at : Int
  deriving Repr, DecidableEq

/-- The in-memory model of a `ChunkStore`: the rows of the lazily created
`chunks` table and the `_fts_indexed` flag.  (The `_table is None` lazy
handle only delays table creation and is invisible to row contents.) -/
structure ChunkStore where
  rows : List StoredChunk
  ftsIndexed : Bool
  deriving Repr, DecidableEq

/-- `table.delete(pred)`: the engine parses the predicate and removes the
rows it selects.  For the one predicate shape the code emits this is
equality of `file_path` with the lexed literal; an unparsable predicate
deletes nothing. -/
def sqlDelete (pred : String) (rows : List StoredChunk) : List StoredChunk :=
  match parseDeletePredicate pred with
  | some target => rows.filter (fun c => ¬ c.file_path = target)
  | none => rows

/-- `ChunkStore.delete_by_file` (storage.py lines 235-251): escape the
path, interpolate it into the predicate, run the delete. -/
def ChunkStore.delete_by_file (st : ChunkStore) (file_path : String) : ChunkStore :=
  { st with rows := sqlDelete ("file_path = '" ++ escapeSqlString file_path ++ "'") st.rows }

/-! ### The escape law -/

theorem stripLit_append (p rest : List Char) : stripLit p (p ++ rest) = some rest := by
  induction p with
  | nil => rfl
  | cons c ps ih => simp [stripLit, ih]

theorem sqlLitLex_escChars (l : List Char) :
    sqlLitLex (escChars l ++ ['\'']) = some (l, []) := by
  induction l with
  | nil => simp [escChars, sqlLitLex]
  | cons c cs ih =>
    by_cases h : c = '\''
    · subst h
      simp [escChars, sqlLitLex, ih]
    · simp [escChars, h, sqlLitLex, ih]

theorem parseDeletePredicate_roundtrip (fp : String) :
    parseDeletePredicate ("file_path = '" ++ escapeSqlString fp ++ "'") = some fp := by
  have hdata : ("file_path = '" ++ escapeSqlString fp ++ "'").data
      = "file_path = '".data ++ (escChars fp.data ++ ['\'']) := by
    simp [String.data_append, escapeSqlString]
  simp only [parseDeletePredicate, hdata, stripLit_append, sqlLitLex_escChars]

/-- `delete_by_file` removes exactly the rows whose `file_path` equals the
argument, for every argument. -/
theorem delete_by_file_rows (st : ChunkStore) (fp : String) :
    (st.delete_by_file fp).rows = st.rows.filter (fun c => ¬ c.file_path = fp) := by
  simp [ChunkStore.delete_by_file, sqlDelete, parseDeletePredicate_roundtrip]

/-- C3: For every file path F — including paths containing single quotes
or SQL fragments such as `' OR '1'='1` — `delete_by_file(F)` removes
exactly the chunks whose `file_path` column equals F, and leaves every
chunk with a different `file_path` unchanged: the surviving rows are
precisely the original rows whose `file_path` differs from F, in order. -/
theorem delete_by_file_exact (st : ChunkStore) (fp : String) :
    (st.delete_by_file fp).rows = st.rows.filter (fun c => ¬ c.file_path = fp) ∧
    (∀ c ∈ st.rows, c.file_path = fp → c ∉ (st.delete_by_file fp).rows) ∧
    (∀ c ∈ st.rows, ¬ c.file_path = fp → c ∈ (st.delete_by_file fp).rows) := by
  refine ⟨delete_by_file_rows st fp, ?_, ?_⟩
  · intro c hc hfp hmem
    rw [delete_by_file_rows] at hmem
    have := List.of_mem_filter hmem
    simp [hfp] at this
  · intro c hc hfp
    rw [delete_by_file_rows]
    exact List.mem_filter.mpr ⟨hc, by simpa using hfp⟩

/-! ## storage.py: the remaining ChunkStore operations -/

/-- `ChunkStore.add_chunks` (storage.py lines 194-211): append rows. -/
def ChunkStore.add_chunks (st : ChunkStore) (chunks : List StoredChunk) : ChunkStore :=
  { st with rows := st.rows ++ chunks }

/-- `ChunkStore.count_chunks` (storage.py lines 361-363). -/
def ChunkStore.count_chunks (st : ChunkStore) : Nat :=
  st.rows.length

/-- `ChunkStore.get_file_hash` (storage.py lines 365-382): select the
`file_hash` of any one chunk matching the escaped `file_path = '...'`
predicate (`limit 1`), or `none` when no chunk matches. -/
def ChunkStore.get_file_hash (st : ChunkStore) (file_path : String) : Option String :=
  match parseDeletePredicate ("file_path = '" ++ escapeSqlString file_path ++ "'") with
  | some target => ((st.rows.filter (fun c => c.file_path = target)).head?).map (·.file_hash)
  | none => none

/-- `ChunkStore.get_indexed_files` (storage.py lines 384-399): the set of
distinct `file_path` values, via a `file_path`-only column projection. -/
def ChunkStore.get_indexed_files (st : ChunkStore) : List String :=
  (st.rows.map (·.file_path)).dedup

/-- Index-build events observable on the underlying engine: an FTS build
attempt records whether the engine call succeeded; a vector build event
records that `create_index("vector", ...)` was issued. -/
inductive StoreEvent
  | ftsBuild (ok : Bool)
  | vectorBuild
  deriving Repr, DecidableEq

/-- Any FTS build attempt, successful or not. -/
def StoreEvent.isFts : StoreEvent → Bool
  | .ftsBuild _ => true
  | .vectorBuild => false

/-- `ChunkStore.ensure_fts_index` (storage.py lines 253-261): when
`_fts_indexed` is still false, call the engine's `create_fts_index`
(`buildOk` is that call's outcome) and set the flag only when the call
succeeds.  The except branch logs and leaves the flag false, so a failed
build is re-attempted on the next search.  Returns the new store and the
build attempt as an event. -/
def ChunkStore.ensure_fts_index (st : ChunkStore) (buildOk : Bool) :
    ChunkStore × List StoreEvent :=
  if st.ftsIndexed then (st, [])
  else if buildOk then ({ st with ftsIndexed := true }, [.ftsBuild true])
  else (st, [.ftsBuild false])

/-- The index-lifecycle effects of `ChunkStore.search_hybrid`
(storage.py lines 263-301): ensure the FTS index (`buildOk` is the
engine outcome of `create_fts_index` if it is called), then — on every
call — issue `create_index("vector", replace=True)` whenever the row
count exceeds 1000 (its own try/except touches no state, so only the
issued call is recorded).  The ranked results themselves are produced by
the engine and are not modelled. -/
def ChunkStore.search_hybrid (st : ChunkStore) (buildOk : Bool) :
    ChunkStore × List StoreEvent :=
  let r1 := st.ensure_fts_index buildOk
  let rowCount := r1.1.rows.length
  (r1.1, r1.2 ++ (if rowCount > 1000 then [.vectorBuild] else []))

/-- `ChunkStore.clear` (storage.py lines 401-406): drop the table (so the
lazy handle recreates it empty) and reset `_fts_indexed`. -/
def ChunkStore.clear (_st : ChunkStore) : ChunkStore :=
  { rows := [], ftsIndexed := false }

/-- The store operations whose index-lifecycle behaviour C6 ranges over;
the `ok` flag of an operation is the engine outcome of the
`create_fts_index` call, should the operation make one. -/
inductive StoreOp
  | ensureFts (ok : Bool)
  | searchHybrid (ok : Bool)
  | clearOp
  deriving Repr, DecidableEq

/-- Run a sequence of store operations, collecting the build events. -/
def runStore (st : ChunkStore) : List StoreOp → ChunkStore × List StoreEvent
  | [] => (st, [])
  | op :: ops =>
    let r1 : ChunkStore × List StoreEvent :=
      match op with
      | .ensureFts ok => st.ensure_fts_index ok
      | .searchHybrid ok => st.search_hybrid ok
      | .clearOp => (st.clear, [])
    let r2 := runStore r1.1 ops
    (r2.1, r1.2 ++ r2.2)

/-- `get_file_hash` in terms of plain row filtering (the escape round-trips). -/
theorem get_file_hash_eq (st : ChunkStore) (fp : String) :
    st.get_file_hash fp
      = ((st.rows.filter (fun c => c.file_path = fp)).head?).map (·.file_hash) := by
  simp [ChunkStore.get_file_hash, parseDeletePredicate_roundtrip]

/-- How many successful FTS builds the `_fts_indexed` flag still allows. -/
def ftsBudget (st : ChunkStore) : Nat :=
  if st.ftsIndexed then 0 else 1

theorem runStore_ftsBuild_le (st : ChunkStore) (ops : List StoreOp)
    (h : StoreOp.clearOp ∉ ops) :
    ((runStore st ops).2.count (StoreEvent.ftsBuild true)) ≤ ftsBudget st := by
  induction ops generalizing st with
  | nil => simp [runStore]
  | cons op ops ih =>
    have hop : op ≠ StoreOp.clearOp := fun hc => h (hc ▸ List.mem_cons_self op ops)
    have hops : StoreOp.clearOp ∉ ops := fun hc => h (List.mem_cons_of_mem op hc)
    cases op with
    | ensureFts ok =>
      by_cases hf : st.ftsIndexed
      · have := ih st hops
        simpa [runStore, ChunkStore.ensure_fts_index, hf] using this
      · cases ok with
        | true =>
          have := ih { st with ftsIndexed := true } hops
          simp only [ftsBudget, if_pos] at this
          simp [runStore, ChunkStore.ensure_fts_index, hf, ftsBudget, List.count_cons]
          omega
        | false =>
          have := ih st hops
          simpa [runStore, ChunkStore.ensure_fts_index, hf, List.count_cons] using this
    | searchHybrid ok =>
      by_cases hf : st.ftsIndexed
      · have := ih st hops
        simpa [runStore, ChunkStore.search_hybrid, ChunkStore.ensure_fts_index, hf,
          List.count_append, apply_ite (List.count (StoreEvent.ftsBuild true))] using this
      · cases ok with
        | true =>
          have := ih { st with ftsIndexed := true } hops
          simp only [ftsBudget, if_pos] at this
          simp [runStore, ChunkStore.search_hybrid, ChunkStore.ensure_fts_index, hf,
            ftsBudget, List.count_append, List.count_cons,
            apply_ite (List.count (StoreEvent.ftsBuild true))]
          omega
        | false =>
          have := ih st hops
          simpa [runStore, ChunkStore.search_hybrid, ChunkStore.ensure_fts_index, hf,
            List.count_append, List.count_cons,
            apply_ite (List.count (StoreEvent.ftsBuild true))] using this
    | clearOp => exact absurd rfl hop

theorem runStore_fts_quiet (st : ChunkStore) (ops : List StoreOp)
    (hf : st.ftsIndexed = true) (h : StoreOp.clearOp ∉ ops) :
    ((runStore st ops).2.countP StoreEvent.isFts) = 0 := by
  induction ops generalizing st with
  | nil => simp [runStore]
  | cons op ops ih =>
    have hop : op ≠ StoreOp.clearOp := fun hc => h (hc ▸ List.mem_cons_self op ops)
    have hops : StoreOp.clearOp ∉ ops := fun hc => h (List.mem_cons_of_mem op hc)
    cases op with
    | ensureFts ok =>
      simpa [runStore, ChunkStore.ensure_fts_index, hf] using ih st hf hops
    | searchHybrid ok =>
      have := ih st hf hops
      simpa [runStore, ChunkStore.search_hybrid, ChunkStore.ensure_fts_index, hf,
        List.countP_append, apply_ite (List.countP StoreEvent.isFts),
        StoreEvent.isFts] using this
    | clearOp => exact absurd rfl hop

/-- C6 (amended): per ChunkStore lifetime segment without `clear`, at
most one *successful* full-text index build occurs: `_fts_indexed` is
set only when the engine's `create_fts_index` succeeds, and once it is
set no FTS build is attempted at all — subsequent searches are no-ops —
while a failed build leaves the flag false (and is recorded as a failed
attempt) so the next search re-attempts it.  The vector index build is
issued on every `search_hybrid` call whenever the row count exceeds 1000
— it is not guarded by any flag.  `clear` resets the flag and empties
the table. -/
theorem index_build_lifecycle :
    (∀ (st : ChunkStore) (ops : List StoreOp), StoreOp.clearOp ∉ ops →
      ((runStore st ops).2.count (StoreEvent.ftsBuild true)) ≤ ftsBudget st) ∧
    (∀ (st : ChunkStore) (ops : List StoreOp), st.ftsIndexed = true →
      StoreOp.clearOp ∉ ops → ((runStore st ops).2.countP StoreEvent.isFts) = 0) ∧
    (∀ st : ChunkStore, st.ftsIndexed = false →
      (st.ensure_fts_index false).1.ftsIndexed = false ∧
      (st.ensure_fts_index false).2 = [StoreEvent.ftsBuild false]) ∧
    (∀ (st : ChunkStore) (ok : Bool),
      (st.search_hybrid ok).2.count StoreEvent.vectorBuild
        = if st.rows.length > 1000 then 1 else 0) ∧
    (∀ st : ChunkStore, (st.clear).ftsIndexed = false ∧ (st.clear).rows = []) := by
  refine ⟨runStore_ftsBuild_le, fun st ops hf h => runStore_fts_quiet st ops hf h,
    ?_, ?_, fun st => ⟨rfl, rfl⟩⟩
  · intro st hf
    constructor <;> simp [ChunkStore.ensure_fts_index, hf]
  · intro st ok
    by_cases hf : st.ftsIndexed <;>
      cases ok <;>
        by_cases hn : st.rows.length > 1000 <;>
          simp [ChunkStore.search_hybrid, ChunkStore.ensure_fts_index, hf, hn,
            List.count_append, List.count_cons]

/-- Witness for `index_build_lifecycle` at a concrete store and op list
containing a failed and a successful build attempt. -/
theorem index_build_lifecycle_witness :
    (StoreOp.clearOp ∉ [StoreOp.ensureFts false, StoreOp.searchHybrid true]) ∧
    ((runStore ⟨[], false⟩ [StoreOp.ensureFts false, StoreOp.searchHybrid true]).2.count
        (StoreEvent.ftsBuild true)) ≤ ftsBudget ⟨[], false⟩ :=
  ⟨by decide, index_build_lifecycle.1 ⟨[], false⟩ _ (by decide)⟩

/-- A concrete stored chunk, for the C6 counterexample. -/
def sampleChunk : StoredChunk :=
  ⟨"id0", "a.py", 0, 1, 1, "text", [], "h0", 0⟩

/-- A store holding 1001 rows, enough to cross the vector-index threshold. -/
def bigStore : ChunkStore :=
  ⟨List.replicate 1001 sampleChunk, false⟩

/-- C6 counterexample: two consecutive `search_hybrid` calls on one
ChunkStore lifetime (1001 rows, no `clear` in between) issue the vector
index build twice — the build is not triggered at most once per lifetime,
because no boolean flag guards it. -/
theorem vector_build_twice_per_lifetime :
    ((runStore bigStore [StoreOp.searchHybrid true, StoreOp.searchHybrid true]).2.count
        StoreEvent.vectorBuild) = 2 := by
  norm_num [runStore, bigStore, ChunkStore.search_hybrid, ChunkStore.ensure_fts_index,
    List.count_append, List.count_cons, List.length_replicate]
  decide

/-! ## chunking.py: language detection, AST-chunk post-processing, fallback

The Chonkie AST chunker is an external dependency; `_try_ast_chunk`'s raw
output (or its unavailability/failure, which yields `None`) is a parameter
of `chunk_file`.  Everything after that point — the tiny-chunk filter, the
line-number calculation, the line-based fallback splitter — is embedded
from the source. -/

/-- Python whitespace for `str.strip` / `str.split` (ASCII range). -/
def pyIsSpace (c : Char) : Bool :=
  c = ' ' ∨ c = '\t' ∨ c = '\n' ∨ c = '\r' ∨ c = '\x0b' ∨ c = '\x0c'

/-- Python `str.strip()`. -/
def pyStrip (s : String) : String :=
  ⟨((s.data.dropWhile pyIsSpace).reverse.dropWhile pyIsSpace).reverse⟩

def countWordsAux : List Char → Bool → Nat
  | [], _ => 0
  | c :: rest, inWord =>
    if pyIsSpace c then countWordsAux rest false
    else (if inWord then 0 else 1) + countWordsAux rest true

/-- Python `len(s.split())`: the number of whitespace-separated words. -/
def countWords (s : String) : Nat :=
  countWordsAux s.data false

/-- The extension → language table of chunking.py (LANGUAGE_MAP). -/
def LANGUAGE_MAP : List (String × String) :=
  [(".py", "python"), (".pyi", "python"), (".js", "javascript"), (".jsx", "javascript"),
   (".ts", "typescript"), (".tsx", "typescript"), (".rs", "rust"), (".go", "go"),
   (".rb", "ruby"), (".java", "java"), (".c", "c"), (".h", "c"), (".cpp", "cpp"),
   (".cc", "cpp"), (".cxx", "cpp"), (".hpp", "cpp"), (".cs", "c_sharp"), (".php", "php"),
   (".swift", "swift"), (".kt", "kotlin"), (".scala", "scala"), (".lua", "lua"),
   (".r", "r"), (".R", "r"), (".jl", "julia"), (".ex", "elixir"), (".exs", "elixir"),
   (".erl", "erlang"), (".hrl", "erlang"), (".hs", "haskell"), (".ml", "ocaml"),
   (".mli", "ocaml"), (".sh", "bash"), (".bash", "bash"), (".zsh", "bash"),
   (".yaml", "yaml"), (".yml", "yaml"), (".json", "json"), (".toml", "toml"),
   (".md", "markdown"), (".sql", "sql")]

/-- `pathlib.Path(p).suffix`: the final component's extension including the
dot, empty when the dot is leading or trailing or absent. -/
def pathSuffix (p : String) : String :=
  let name := (p.data.reverse.takeWhile (fun c => ¬ c = '/')).reverse
  let extRev := name.reverse.takeWhile (fun c => ¬ c = '.')
  if extRev.length = name.length then ""
  else if 0 < name.length - extRev.length - 1 ∧ ¬ extRev = [] then
    ⟨'.' :: extRev.reverse⟩
  else ""

/-- Python `str.lower()` (character-wise). -/
def pyLower (s : String) : String :=
  ⟨s.data.map Char.toLower⟩

/-- `detect_language` (chunking.py lines 86-96). -/
def detect_language (file_path : String) : Option String :=
  LANGUAGE_MAP.lookup (pyLower (pathSuffix file_path))

/-- Minimum token count below which `_process_chunks` drops a chunk. -/
def MIN_CHUNK_TOKENS : Nat := 10

/-- One chunk as returned to the indexer. -/
structure ChunkInfo where
  text : String
  token_count : Nat
  chunk_index : Nat
  start_line : Nat
  end_line : Nat
  deriving Repr, DecidableEq

/-- A raw chunk coming back from the Chonkie chunker: its text, and its
`token_count` attribute when present (`getattr` default otherwise). -/
structure RawChunk where
  text : String
  token_count : Option Nat
  deriving Repr, DecidableEq

/-- Python `s.split("\n")` on the character list (structural, so that the
kernel can evaluate it on concrete inputs). -/
def splitNl : List Char → List (List Char)
  | [] => [[]]
  | c :: rest =>
    let r := splitNl rest
    if c = '\n' then [] :: r
    else
      match r with
      | h :: t => (c :: h) :: t
      | [] => [[c]]

/-- Python `content.split("\n")`. -/
def pySplitNl (s : String) : List String :=
  (splitNl s.data).map (fun l => ⟨l⟩)

/-- Cumulative character offsets of line starts (`line_starts` in
`_process_chunks`). -/
def buildLineStarts (content : String) : List Nat :=
  ((pySplitNl content).foldl
    (fun (acc : List Nat × Nat) line =>
      (acc.1 ++ [acc.2 + line.length + 1], acc.2 + line.length + 1))
    ([0], 0)).1

/-- First index at which `needle` occurs in `hay` (Python `str.find`,
`none` standing for -1). -/
def findSub (hay needle : List Char) : Option Nat :=
  if needle.isPrefixOf hay then some 0
  else
    match hay with
    | [] => none
    | _ :: t => (findSub t needle).map (· + 1)

/-- One iteration of the `_process_chunks` loop (chunking.py lines
218-254): strip the text, resolve the token count, drop tiny or empty
chunks, compute the line range from the first ≤50 characters. -/
def processStep (content : String) (lineStarts : List Nat)
    (acc : List ChunkInfo) (raw : RawChunk) : List ChunkInfo :=
  let text := pyStrip raw.text
  let token_count := raw.token_count.getD (countWords text)
  if token_count < MIN_CHUNK_TOKENS ∨ text = "" then acc
  else
    let lineRange : Nat × Nat :=
      match findSub content.data (text.data.take 50) with
      | none => (1, 1)
      | some pos =>
        ((lineStarts.findIdx? (fun sp => sp > pos)).getD 1,
         (lineStarts.findIdx? (fun sp => sp > pos + text.length)).getD 1)
    acc ++ [⟨text, token_count, acc.length, lineRange.1, lineRange.2⟩]

/-- `CodeChunker._process_chunks` (chunking.py lines 207-256). -/
def processChunks (rawChunks : List RawChunk) (content : String) : List ChunkInfo :=
  rawChunks.foldl (processStep content (buildLineStarts content)) []

/-- Python `"\n".join(lines)`. -/
def pyJoinNl : List String → String
  | [] => ""
  | [s] => s
  | s :: rest => s ++ "\n" ++ pyJoinNl rest

/-- Loop state of `_fallback_chunk`. -/
structure FallbackState where
  chunks : List ChunkInfo
  current : List String
  tokens : Nat
  startLine : Nat
  deriving Repr, DecidableEq

/-- One iteration of the `_fallback_chunk` loop (chunking.py lines
270-291): emit the accumulated chunk when the token budget would
overflow, guarded only by the stripped text being nonempty. -/
def fallbackStep (chunkSize : Nat) (st : FallbackState) (il : Nat × String) : FallbackState :=
  let lineTokens := countWords il.2 + 1
  if st.tokens + lineTokens > chunkSize ∧ ¬ st.current = [] then
    let text := pyJoinNl st.current
    let chunks :=
      if ¬ pyStrip text = "" then
        st.chunks ++ [⟨text, st.tokens, st.chunks.length, st.startLine, il.1⟩]
      else st.chunks
    ⟨chunks, [il.2], lineTokens, il.1 + 1⟩
  else
    ⟨st.chunks, st.current ++ [il.2], st.tokens + lineTokens, st.startLine⟩

/-- `CodeChunker._fallback_chunk` (chunking.py lines 258-307). -/
def fallbackChunk (chunkSize : Nat) (content : String) : List ChunkInfo :=
  let lines := pySplitNl content
  let st := lines.enum.foldl (fallbackStep chunkSize) ⟨[], [], 0, 1⟩
  if ¬ st.current = [] then
    let text := pyJoinNl st.current
    if ¬ pyStrip text = "" then
      st.chunks ++ [⟨text, st.tokens, st.chunks.length, st.startLine, lines.length⟩]
    else st.chunks
  else st.chunks

/-- The result record of `chunk_file`. -/
structure CodeChunkResult where
  file_path : String
  chunks : List ChunkInfo
  language : Option String
  error : Option String
  deriving Repr, DecidableEq

/-- `CodeChunker.chunk_file` (chunking.py lines 165-205).  `content` is the
file's text (`none` = read failure); `astOracle` is the outcome of
`_try_ast_chunk`'s call into Chonkie (`none` = chunker unavailable or the
`chunk` call raised), consulted only for recognized languages. -/
def chunk_file (chunkSize : Nat) (astOracle : Option (List RawChunk))
    (file_path : String) (content : Option String) : CodeChunkResult :=
  match content with
  | none => ⟨file_path, [], none, some ("Failed to read file: " ++ file_path)⟩
  | some content =>
    if pyStrip content = "" then ⟨file_path, [], none, none⟩
    else
      let language := detect_language file_path
      let astChunks : Option (List ChunkInfo) :=
        match language with
        | some _ => astOracle.map (fun raw => processChunks raw content)
        | none => none
      let chunks :=
        match astChunks with
        | some cs => cs
        | none => fallbackChunk chunkSize content
      ⟨file_path, chunks, language, none⟩

theorem foldl_processStep_inv (content : String) (ls : List Nat)
    (raws : List RawChunk) (acc : List ChunkInfo)
    (h : ∀ c ∈ acc, MIN_CHUNK_TOKENS ≤ c.token_count) :
    ∀ c ∈ raws.foldl (processStep content ls) acc, MIN_CHUNK_TOKENS ≤ c.token_count := by
  induction raws generalizing acc with
  | nil => simpa using h
  | cons r rs ih =>
    refine ih (processStep content ls acc r) ?_
    intro c hc
    simp only [processStep] at hc
    split at hc
    · exact h c hc
    · next hguard =>
      rcases List.mem_append.mp hc with h1 | h2
      · exact h c h1
      · have hc2 := List.mem_singleton.mp h2
        push_neg at hguard
        subst hc2
        simpa using hguard.1

theorem foldl_fallbackStep_inv (chunkSize : Nat) (ils : List (Nat × String))
    (st : FallbackState) (h : ∀ c ∈ st.chunks, ¬ pyStrip c.text = "") :
    ∀ c ∈ (ils.foldl (fallbackStep chunkSize) st).chunks, ¬ pyStrip c.text = "" := by
  induction ils generalizing st with
  | nil => simpa using h
  | cons il ils ih =>
    refine ih (fallbackStep chunkSize st il) ?_
    intro c hc
    by_cases h1 : st.tokens + (countWords il.2 + 1) > chunkSize ∧ ¬ st.current = []
    · by_cases h2 : ¬ pyStrip (pyJoinNl st.current) = ""
      · simp only [fallbackStep, h1, h2, if_true, if_pos] at hc
        rcases List.mem_append.mp hc with ha | hb
        · exact h c ha
        · have := List.mem_singleton.mp hb
          subst this
          exact h2
      · simp only [fallbackStep, h1, h2, if_true, if_pos, if_neg] at hc
        exact h c hc
    · simp only [fallbackStep, h1, if_neg, if_false] at hc
      exact h c hc

/-- C5 (amended): chunks whose token count is below 10 are dropped only on
the syntax-aware path — every chunk produced by `_process_chunks` has
`token_count ≥ MIN_CHUNK_TOKENS` — while the line-based fallback keeps any
accumulated chunk whose stripped text is nonempty, regardless of its token
count. -/
theorem tiny_chunks_dropped_on_ast_path_only :
    (∀ (rawChunks : List RawChunk) (content : String),
      ∀ c ∈ processChunks rawChunks content, MIN_CHUNK_TOKENS ≤ c.token_count) ∧
    (∀ (chunkSize : Nat) (content : String),
      ∀ c ∈ fallbackChunk chunkSize content, ¬ pyStrip c.text = "") := by
  constructor
  · intro raws content c hc
    exact foldl_processStep_inv content (buildLineStarts content) raws [] (by simp) c hc
  · intro chunkSize content c hc
    simp only [fallbackChunk] at hc
    have hinv := foldl_fallbackStep_inv chunkSize (pySplitNl content).enum
      ⟨[], [], 0, 1⟩ (by simp)
    set st := (pySplitNl content).enum.foldl (fallbackStep chunkSize) ⟨[], [], 0, 1⟩ with hst
    by_cases h1 : ¬ st.current = []
    · by_cases h2 : ¬ pyStrip (pyJoinNl st.current) = ""
      · simp only [h1, h2, if_true, if_pos] at hc
        rcases List.mem_append.mp hc with ha | hb
        · exact hinv c ha
        · have := List.mem_singleton.mp hb
          subst this
          exact h2
      · simp only [h1, h2, if_true, if_pos, if_neg] at hc
        exact hinv c hc
    · simp only [h1, if_neg, if_false] at hc
      exact hinv c hc

/-- Witness for `tiny_chunks_dropped_on_ast_path_only` at a concrete raw
chunk list (AST path) and a concrete fallback input. -/
theorem tiny_chunks_dropped_witness :
    (⟨"alpha beta gamma delta epsilon zeta eta theta iota kappa", 10, 0, 1, 1⟩ ∈
      processChunks [⟨"alpha beta gamma delta epsilon zeta eta theta iota kappa", none⟩] "xyz") ∧
    MIN_CHUNK_TOKENS ≤
      (⟨"alpha beta gamma delta epsilon zeta eta theta iota kappa", 10, 0, 1, 1⟩ :
        ChunkInfo).token_count :=
  ⟨by decide,
   tiny_chunks_dropped_on_ast_path_only.1
     [⟨"alpha beta gamma delta epsilon zeta eta theta iota kappa", none⟩] "xyz"
     ⟨"alpha beta gamma delta epsilon zeta eta theta iota kappa", 10, 0, 1, 1⟩ (by decide)⟩

/-- C5 counterexample: chunking the unrecognized-extension file
`notes.txt` with content `"hello"` takes the line-based fallback path and
returns one chunk of token count 2 — strictly below the 10-token minimum
the claim says is enforced on both paths. -/
theorem fallback_keeps_tiny_chunk :
    (chunk_file 500 none "notes.txt" (some "hello")).chunks
      = [⟨"hello", 2, 0, 1, 1⟩] ∧ 2 < MIN_CHUNK_TOKENS := by
  constructor
  · decide
  · decide

/-! ## indexing.py: the Indexer

`Indexer` wires file discovery, hashing, chunking, embedding and storage.
Its external collaborators are parameters of `IndexerEnv`: the discovery
snapshot, the byte/text reads of the file system, the SHA-256 routine
(`hashlib`), the Chonkie oracle, the embedder (which can fail: after its
retries are exhausted, `embed_documents` raises — modelled as `Except`),
the `relative_to` path resolution, and the uuid source.  Store reads and
writes go to the embedded `ChunkStore`.  Calls that matter to the claims
are recorded as `IndexEvent`s. -/

/-- `IndexStatus` (indexing.py lines 28-36).  `duration_ms` is wall-clock
time, not modelled: always 0. -/
structure IndexStatus where
  file_count : Nat
  chunk_count : Nat
  duration_ms : Int
  total_tokens : Nat
  deriving Repr, DecidableEq

/-- The result of `VoyageEmbedder.embed_documents`. -/
structure EmbedResultM where
  embeddings : List (List Int)
  token_usage : Nat
  deriving Repr, DecidableEq

/-- The dependencies of one `Indexer` instance. -/
structure IndexerEnv where
  findFiles : List String
  readFile : String → Option (List Nat)
  sha256hex : List Nat → String
  chunkSize : Nat
  astOracle : String → Option (List RawChunk)
  readText : String → Option String
  embedDocs : List String → Except String EmbedResultM
  relTo : String → String
  newId : Nat → String

/-- Side effects of `index_file` that the claims observe. -/
inductive IndexEvent
  | embedCall (texts : List String)
  | storeDelete (path : String)
  | storeAdd (count : Nat)
  deriving Repr, DecidableEq

/-- `Indexer._compute_file_hash` (indexing.py lines 105-112): SHA-256 of
the file bytes, or `""` when the read raises. -/
def compute_file_hash (env : IndexerEnv) (f : String) : String :=
  match env.readFile f with
  | some content => env.sha256hex content
  | none => ""

/-- `Indexer._build_code_chunks` (indexing.py lines 114-136): zip chunk
infos with embedding vectors (`strict=False`), numbering `chunk_index`
from 0.  `indexed_at` is wall-clock time, not modelled: always 0. -/
def buildCodeChunks (env : IndexerEnv) (chunkInfos : List ChunkInfo)
    (embeddings : List (List Int)) (relPath fileHash : String) : List StoredChunk :=
  (chunkInfos.zip embeddings).enum.map (fun p =>
    ⟨env.newId p.1, relPath, p.1, p.2.1.start_line, p.2.1.end_line, p.2.1.text,
     p.2.2, fileHash, 0⟩)

/-- `Indexer.index_file` (indexing.py lines 138-198): skip by content
hash, chunk (chunk errors are caught and yield `file_count = 0`), embed
(embedding failures propagate), delete-then-add.  `shouldSkip` is the
hash comparison of lines 155-160 (an empty hash — a failed read — never
skips; a missing stored hash never skips). -/
def shouldSkip (st : ChunkStore) (rel fileHash : String) : Bool :=
  if fileHash = "" then false
  else
    match st.get_file_hash rel with
    | some stored => stored = fileHash
    | none => false

def index_file (env : IndexerEnv) (st : ChunkStore) (f : String) :
    Except String (IndexStatus × ChunkStore × List IndexEvent) :=
  let rel := env.relTo f
  let fileHash := compute_file_hash env f
  if shouldSkip st rel fileHash then .ok (⟨1, 0, 0, 0⟩, st, [])
  else
    let cr := chunk_file env.chunkSize (env.astOracle f) f (env.readText f)
    match cr.error with
    | some _ => .ok (⟨0, 0, 0, 0⟩, st, [])
    | none =>
      if cr.chunks = [] then
        .ok (⟨1, 0, 0, 0⟩, st.delete_by_file rel, [.storeDelete rel])
      else
        let texts := cr.chunks.map (·.text)
        match env.embedDocs texts with
        | .error e => .error e
        | .ok er =>
          let st1 := st.delete_by_file rel
          let newChunks := buildCodeChunks env cr.chunks er.embeddings rel fileHash
          let st2 := st1.add_chunks newChunks
          .ok (⟨1, newChunks.length, 0, er.token_usage⟩, st2,
               [.embedCall texts, .storeDelete rel, .storeAdd newChunks.length])

/-- The stale files of one `index_all` run (indexing.py lines 79-83):
indexed files not in the discovery snapshot. -/
def staleFiles (env : IndexerEnv) (st : ChunkStore) : List String :=
  st.get_indexed_files.filter (fun p => ¬ p ∈ env.findFiles.map env.relTo)

/-- The per-file loop of `index_all` (indexing.py lines 89-92): aggregate
`chunk_count` and `total_tokens`; the per-file `file_count` is ignored.
An embedding failure inside `index_file` propagates. -/
def indexAllLoop (env : IndexerEnv) :
    List String → IndexStatus × ChunkStore → Except String (IndexStatus × ChunkStore)
  | [], acc => .ok acc
  | f :: fs, acc =>
    match index_file env acc.2 f with
    | .error e => .error e
    | .ok r =>
      indexAllLoop env fs
        (⟨acc.1.file_count, acc.1.chunk_count + r.1.chunk_count, 0,
          acc.1.total_tokens + r.1.total_tokens⟩, r.2.1)

/-- `Indexer.index_all` (indexing.py lines 64-103): snapshot discovery,
set `file_count` to the snapshot size, delete stale files, fold
`index_file` over the snapshot. -/
def index_all (env : IndexerEnv) (st : ChunkStore) :
    Except String (IndexStatus × ChunkStore) :=
  let all_files := env.findFiles
  let st1 := (staleFiles env st).foldl (fun s p => s.delete_by_file p) st
  indexAllLoop env all_files (⟨all_files.length, 0, 0, 0⟩, st1)

/-! ### Hash-skip, stale reconciliation, aggregate file count -/

/-- C4: when the freshly computed SHA-256 hash of F's content equals the
hash stored for F's project-relative path, `index_file(F)` returns
immediately: no embedding call, no store write, no store delete — the
status is the bare skip status, the store is unchanged, and the event
trace is empty. -/
theorem index_file_hash_skip (env : IndexerEnv) (st : ChunkStore) (f : String)
    (content : List Nat) (h : String)
    (h1 : env.readFile f = some content) (h2 : env.sha256hex content = h)
    (h3 : ¬ h = "") (h4 : st.get_file_hash (env.relTo f) = some h) :
    index_file env st f = .ok (⟨1, 0, 0, 0⟩, st, []) := by
  simp [index_file, shouldSkip, compute_file_hash, h1, h2, h3, h4]

/-- Environment for the `index_file_hash_skip` witness. -/
def skipEnv : IndexerEnv where
  findFiles := ["f"]
  readFile := fun _ => some [1, 2, 3]
  sha256hex := fun _ => "hashvalue"
  chunkSize := 500
  astOracle := fun _ => none
  readText := fun _ => some "hello"
  embedDocs := fun _ => .ok ⟨[], 0⟩
  relTo := fun s => s
  newId := fun _ => "cid"

/-- Store for the `index_file_hash_skip` witness: one chunk for `f`
carrying the hash the environment will recompute. -/
def skipStore : ChunkStore :=
  ⟨[⟨"id0", "f", 0, 1, 1, "hello", [], "hashvalue", 0⟩], false⟩

/-- Witness for `index_file_hash_skip` at a concrete file and store. -/
theorem index_file_hash_skip_witness :
    (skipEnv.readFile "f" = some [1, 2, 3] ∧ skipEnv.sha256hex [1, 2, 3] = "hashvalue" ∧
      ¬ "hashvalue" = "" ∧ skipStore.get_file_hash (skipEnv.relTo "f") = some "hashvalue") ∧
    index_file skipEnv skipStore "f" = .ok (⟨1, 0, 0, 0⟩, skipStore, []) :=
  ⟨⟨rfl, rfl, by decide, by decide⟩,
   index_file_hash_skip skipEnv skipStore "f" [1, 2, 3] "hashvalue" rfl rfl
     (by decide) (by decide)⟩

theorem mem_foldl_delete (ps : List String) (st : ChunkStore) (c : StoredChunk) :
    c ∈ (ps.foldl (fun s p => s.delete_by_file p) st).rows ↔
      c ∈ st.rows ∧ ∀ p ∈ ps, ¬ c.file_path = p := by
  induction ps generalizing st with
  | nil => simp
  | cons p ps ih =>
    simp only [List.foldl_cons, ih, delete_by_file_rows, List.mem_filter,
      List.forall_mem_cons, decide_eq_true_eq]
    tauto

theorem buildCodeChunks_path (env : IndexerEnv) (cis : List ChunkInfo)
    (embs : List (List Int)) (rel fh : String) (c : StoredChunk)
    (hc : c ∈ buildCodeChunks env cis embs rel fh) : c.file_path = rel := by
  simp only [buildCodeChunks, List.mem_map] at hc
  obtain ⟨p, _, hp⟩ := hc
  subst hp
  rfl

theorem index_file_paths (env : IndexerEnv) (st : ChunkStore) (f : String)
    (P : String → Prop) (hst : ∀ c ∈ st.rows, P c.file_path) (hf : P (env.relTo f)) :
    ∀ r, index_file env st f = .ok r → ∀ c ∈ r.2.1.rows, P c.file_path := by
  intro r hr c hc
  simp only [index_file] at hr
  split at hr
  · simp only [Except.ok.injEq] at hr
    subst hr
    exact hst c hc
  · split at hr
    · simp only [Except.ok.injEq] at hr
      subst hr
      exact hst c hc
    · split at hr
      · simp only [Except.ok.injEq] at hr
        subst hr
        have hc' : c ∈ (st.delete_by_file (env.relTo f)).rows := hc
        rw [delete_by_file_rows] at hc'
        exact hst c (List.mem_filter.mp hc').1
      · split at hr
        · exact Except.noConfusion hr
        · simp only [Except.ok.injEq] at hr
          subst hr
          simp only [ChunkStore.add_chunks, delete_by_file_rows, List.mem_append,
            List.mem_filter] at hc
          rcases hc with ⟨ha, _⟩ | hb
          · exact hst c ha
          · rw [buildCodeChunks_path env _ _ _ _ c hb]
            exact hf

theorem indexAllLoop_paths (env : IndexerEnv) (P : String → Prop)
    (files : List String) (acc : IndexStatus × ChunkStore)
    (hfs : ∀ f ∈ files, P (env.relTo f)) (hacc : ∀ c ∈ acc.2.rows, P c.file_path) :
    ∀ r, indexAllLoop env files acc = .ok r → ∀ c ∈ r.2.rows, P c.file_path := by
  induction files generalizing acc with
  | nil =>
    intro r hr
    simp only [indexAllLoop, Except.ok.injEq] at hr
    subst hr
    exact hacc
  | cons f fs ih =>
    intro r hr
    simp only [indexAllLoop] at hr
    split at hr
    · exact Except.noConfusion hr
    · next r1 heq =>
      exact ih _ (fun g hg => hfs g (List.mem_cons_of_mem f hg))
        (index_file_paths env acc.2 f P hacc (hfs f (List.mem_cons_self f fs)) r1 heq) r hr

/-- C9: after a successful `index_all`, the set returned by
`get_indexed_files` is a subset of the project-relative paths of the
discovery snapshot; and every previously indexed file absent from the
snapshot is in `staleFiles`, the list whose every element is passed to
`delete_by_file` during the run. -/
theorem index_all_stale_reconciliation (env : IndexerEnv) (st : ChunkStore)
    (r : IndexStatus × ChunkStore) (hr : index_all env st = .ok r) :
    (∀ p ∈ r.2.get_indexed_files, p ∈ env.findFiles.map env.relTo) ∧
    (∀ p ∈ st.get_indexed_files, ¬ p ∈ env.findFiles.map env.relTo →
      p ∈ staleFiles env st) := by
  constructor
  · intro p hp
    simp only [ChunkStore.get_indexed_files, List.mem_dedup, List.mem_map] at hp
    obtain ⟨c, hc, hcp⟩ := hp
    subst hcp
    refine indexAllLoop_paths env (fun q => q ∈ env.findFiles.map env.relTo)
      env.findFiles _ (fun f hf => List.mem_map_of_mem env.relTo hf) ?_ r hr c hc
    intro c' hc'
    have hmem := (mem_foldl_delete (staleFiles env st) st c').mp hc'
    by_contra hnot
    have hstale : c'.file_path ∈ staleFiles env st := by
      simp only [staleFiles, List.mem_filter, decide_eq_true_eq]
      refine ⟨?_, hnot⟩
      simp only [ChunkStore.get_indexed_files, List.mem_dedup]
      exact List.mem_map_of_mem _ hmem.1
    exact hmem.2 _ hstale rfl
  · intro p hp hnot
    simp only [staleFiles, List.mem_filter, decide_eq_true_eq]
    exact ⟨hp, hnot⟩

/-- Environment for the C9 witness: one discovered file `f` whose content
chunkes to a single fallback chunk and embeds successfully. -/
def w9env : IndexerEnv where
  findFiles := ["f"]
  readFile := fun _ => some [1]
  sha256hex := fun _ => "h1"
  chunkSize := 500
  astOracle := fun _ => none
  readText := fun _ => some "hello world"
  embedDocs := fun _ => .ok ⟨[[1]], 7⟩
  relTo := fun s => s
  newId := fun _ => "cid"

/-- Store for the C9 witness: one stale chunk for `old.py`. -/
def w9st : ChunkStore :=
  ⟨[⟨"idA", "old.py", 0, 1, 1, "x", [], "h", 0⟩], false⟩

/-- The store `index_all` produces for `w9env`/`w9st`. -/
def w9final : ChunkStore :=
  ⟨[⟨"cid", "f", 0, 1, 1, "hello world", [1], "h1", 0⟩], false⟩

/-- Witness for `index_all_stale_reconciliation` at a concrete run. -/
theorem index_all_stale_reconciliation_witness :
    (index_all w9env w9st = .ok (⟨1, 1, 0, 7⟩, w9final)) ∧
    "f" ∈ w9env.findFiles.map w9env.relTo :=
  ⟨by rfl,
   (index_all_stale_reconciliation w9env w9st (⟨1, 1, 0, 7⟩, w9final) (by rfl)).1
     "f" (by decide)⟩

theorem indexAllLoop_file_count (env : IndexerEnv) (files : List String)
    (acc : IndexStatus × ChunkStore) (r : IndexStatus × ChunkStore)
    (hr : indexAllLoop env files acc = .ok r) : r.1.file_count = acc.1.file_count := by
  induction files generalizing acc with
  | nil =>
    simp only [indexAllLoop, Except.ok.injEq] at hr
    subst hr
    rfl
  | cons f fs ih =>
    simp only [indexAllLoop] at hr
    split at hr
    · exact Except.noConfusion hr
    · have := ih _ hr
      simpa using this

/-- C10 (amended): whenever `index_all` returns a status at all, its
`file_count` equals the size of the discovery snapshot — files skipped as
unchanged, files producing zero chunks, and files that failed to chunk
are all counted, because the aggregate ignores the per-file statuses'
`file_count` values.  A file that fails to embed, however, makes
`index_all` propagate the error: no status (and no `file_count`) is
reported at all. -/
theorem index_all_reports_snapshot_size (env : IndexerEnv) (st : ChunkStore)
    (r : IndexStatus × ChunkStore) (hr : index_all env st = .ok r) :
    r.1.file_count = env.findFiles.length :=
  indexAllLoop_file_count env env.findFiles _ r hr

/-- Witness for `index_all_reports_snapshot_size` at the concrete C9 run. -/
theorem index_all_reports_snapshot_size_witness :
    (index_all w9env ⟨[], false⟩ = .ok (⟨1, 1, 0, 7⟩, w9final)) ∧
    (⟨1, 1, 0, 7⟩ : IndexStatus).file_count = w9env.findFiles.length :=
  ⟨by rfl,
   index_all_reports_snapshot_size w9env ⟨[], false⟩ (⟨1, 1, 0, 7⟩, w9final) (by rfl)⟩

/-- Environment for the C10 counterexample: the single discovered file
chunks fine but every embedding call fails (retries exhausted). -/
def w10env : IndexerEnv where
  findFiles := ["f"]
  readFile := fun _ => some [1]
  sha256hex := fun _ => "h1"
  chunkSize := 500
  astOracle := fun _ => none
  readText := fun _ => some "hello world"
  embedDocs := fun _ => .error "Voyage API down"
  relTo := fun s => s
  newId := fun _ => "cid"

/-- C10 counterexample: with one file in the snapshot that fails to
embed, `index_all` does not report `file_count = 1` (nor any status): the
embedding failure propagates out of `index_file` — there is no per-file
catch in `index_all` — so the claim's "counting also files that failed to
… embed" does not hold on the code. -/
theorem index_all_aborts_on_embed_failure :
    index_all w10env ⟨[], false⟩ = .error "Voyage API down" := by
  rfl

/-! ## embeddings.py: `_embed_batch_with_retry`

The Voyage client is external: the outcome of its k-th `client.embed`
call (counting every call the function makes, 0-based) and the
`random.uniform(0, 1)` sample drawn before the k-th sleep are parameters.
The function retries any exception; a "max allowed tokens" message with a
batch of more than one text splits the batch in halves and retries each
half recursively (each with a fresh attempt budget); the last attempt
re-raises.  Python's `for attempt in range(MAX_RETRIES)` is embedded as
recursion over the list `List.range MAX_RETRIES` of attempt numbers. -/

def MAX_RETRIES : Nat := 5

def BASE_DELAY : ℚ := 1

/-- Outcome of one `client.embed` call. -/
inductive EmbedOutcome
  | success (embeddings : List (List Int)) (total_tokens : Nat)
  | failure (msg : String)

/-- The external dependencies of `_embed_batch_with_retry`. -/
structure RetryEnv where
  oracle : Nat → EmbedOutcome
  jitter : Nat → ℚ

/-- Result: the value or re-raised error, the next call counter, and the
list of sleep durations in seconds (in order). -/
def RetryResult := Except String (List (List Int) × Nat) × Nat × List ℚ

/-- Python `needle in hay` for strings (substring containment). -/
def containsSub (hay needle : String) : Bool :=
  (findSub hay.data needle.data).isSome

/-- The body of `_embed_batch_with_retry` (embeddings.py lines 90-148),
with `attempts` the remaining attempt numbers of `range(MAX_RETRIES)`. -/
def embedLoop (env : RetryEnv) (batch : List String) (attempts : List Nat)
    (k : Nat) : RetryResult :=
  match attempts with
  | [] => (.error "Unexpected end of retry loop", k, [])
  | attempt :: rest =>
    match env.oracle k with
    | .success e t => (.ok (e, t), k + 1, [])
    | .failure msg =>
      if h : containsSub msg "max allowed tokens" = true ∧ 1 < batch.length then
        let mid := batch.length / 2
        let r1 := embedLoop env (batch.take mid) (List.range MAX_RETRIES) (k + 1)
        match r1.1 with
        | .error e => (.error e, r1.2.1, r1.2.2)
        | .ok (e1, t1) =>
          let r2 := embedLoop env (batch.drop mid) (List.range MAX_RETRIES) r1.2.1
          match r2.1 with
          | .error e => (.error e, r2.2.1, r1.2.2 ++ r2.2.2)
          | .ok (e2, t2) => (.ok (e1 ++ e2, t1 + t2), r2.2.1, r1.2.2 ++ r2.2.2)
      else if rest = [] then (.error msg, k + 1, [])
      else
        let r := embedLoop env batch rest (k + 1)
        (r.1, r.2.1, (BASE_DELAY * 2 ^ attempt + env.jitter k) :: r.2.2)
termination_by (batch.length, attempts.length)
decreasing_by
· exact Prod.Lex.left _ _ (by simp [List.length_take]; omega)
· exact Prod.Lex.left _ _ (by simp [List.length_drop]; omega)
· exact Prod.Lex.right _ (by simp)

/-- `_embed_batch_with_retry` entered with call counter `k`. -/
def embedBatchWithRetry (env : RetryEnv) (batch : List String) (k : Nat) : RetryResult :=
  embedLoop env batch (List.range MAX_RETRIES) k

/-- C7 (amended): when every call fails with an error whose message does
not contain "max allowed tokens", `_embed_batch_with_retry` makes exactly
`MAX_RETRIES = 5` calls, re-raises the last error, and sleeps exactly
four times with delay `BASE_DELAY·2ⁿ + jitter` at zero-based attempt `n`.
There is no non-retryable error class: authentication and
malformed-request errors take this same path. -/
theorem embed_retry_exhausts_attempts (env : RetryEnv) (batch : List String)
    (msgs : Nat → String)
    (hfail : ∀ n, env.oracle n = .failure (msgs n))
    (hnl : ∀ n, containsSub (msgs n) "max allowed tokens" = false) :
    embedBatchWithRetry env batch 0
      = (.error (msgs 4), 5,
         [BASE_DELAY * 2 ^ 0 + env.jitter 0, BASE_DELAY * 2 ^ 1 + env.jitter 1,
          BASE_DELAY * 2 ^ 2 + env.jitter 2, BASE_DELAY * 2 ^ 3 + env.jitter 3]) := by
  have h5 : List.range MAX_RETRIES = [0, 1, 2, 3, 4] := rfl
  simp only [embedBatchWithRetry, h5]
  simp [embedLoop, hfail 0, hfail 1, hfail 2, hfail 3, hfail 4,
    hnl 0, hnl 1, hnl 2, hnl 3, hnl 4]

/-- Environment for the `embed_retry_exhausts_attempts` witness: every
call fails the same way, jitter samples are all 0. -/
def allFailEnv : RetryEnv where
  oracle := fun _ => .failure "service unavailable"
  jitter := fun _ => 0

/-- Witness for `embed_retry_exhausts_attempts` at a concrete
environment. -/
theorem embed_retry_exhausts_attempts_witness :
    embedBatchWithRetry allFailEnv ["t"] 0
      = (.error "service unavailable", 5,
         [BASE_DELAY * 2 ^ 0 + allFailEnv.jitter 0, BASE_DELAY * 2 ^ 1 + allFailEnv.jitter 1,
          BASE_DELAY * 2 ^ 2 + allFailEnv.jitter 2, BASE_DELAY * 2 ^ 3 + allFailEnv.jitter 3]) :=
  embed_retry_exhausts_attempts allFailEnv ["t"] (fun _ => "service unavailable")
    (fun _ => rfl) (fun _ => rfl)

/-- Environment for the C7 counterexample: the first call fails with an
authentication error, the second succeeds. -/
def authRetryEnv : RetryEnv where
  oracle := fun k =>
    if k = 0 then .failure "401 authentication error: invalid API key"
    else .success [[1]] 9
  jitter := fun _ => 0

/-- C7 counterexample: an authentication error does not propagate
immediately — the batch is retried after the backoff sleep, a second call
is made and its result returned.  The code classifies no error as
non-retryable (it special-cases only "max allowed tokens"). -/
theorem auth_error_is_retried :
    embedBatchWithRetry authRetryEnv ["text"] 0 = (.ok ([[1]], 9), 2, [1]) := by
  have h5 : List.range MAX_RETRIES = [0, 1, 2, 3, 4] := rfl
  simp only [embedBatchWithRetry, h5]
  norm_num [embedLoop, authRetryEnv, BASE_DELAY, containsSub, findSub]
  intro h
  exact absurd h (by decide)

/-! ## server.py: the multi-project registry

The registry is `LgrepContext.projects`, a dict keyed by resolved path;
we model its key set as a `List String` (keys are unique).  Every
mutation of the dict in server.py happens in one of these places, each
atomic because it runs while holding `_lock` (or, for the removals, runs
between awaits on the single-threaded event loop):
`_ensure_project_initialized` (fast-path hit, cap refusal, missing-key
refusal, constructor failure, successful insert — lines 246-299),
`remove_project` (line 724), the auto-index leader's failure pop (lines
391 and 402), and `_shutdown`'s clear (line 199).  `RegStep` has one
constructor per mutation shape. -/

def MAX_PROJECTS : Nat := 20

/-- One atomic registry operation. -/
inductive RegStep : List String → List String → Prop
  | ensureHit (reg : List String) (p : String) (h : p ∈ reg) : RegStep reg reg
  | ensureRefuse (reg : List String) (p : String) : RegStep reg reg
  | ensureAdd (reg : List String) (p : String) (h1 : p ∉ reg)
      (h2 : reg.length < MAX_PROJECTS) : RegStep reg (p :: reg)
  | removeProject (reg : List String) (p : String) : RegStep reg (reg.erase p)
  | autoIndexPop (reg : List String) (p : String) : RegStep reg (reg.erase p)
  | shutdown (reg : List String) : RegStep reg []

/-- Registry states reachable from the empty startup registry under any
interleaving of tool calls, warm-up `ensure`s, removals and shutdown. -/
inductive RegReach : List String → Prop
  | init : RegReach []
  | step {reg reg' : List String} : RegReach reg → RegStep reg reg' → RegReach reg'

/-- `_warm_projects`' capping of its path list (server.py lines 172-181):
`available = max(0, MAX_PROJECTS - len(projects))`, truncate when the
list is longer. -/
def warmCapped (reg paths : List String) : List String :=
  let available := MAX_PROJECTS - reg.length
  if available < paths.length then paths.take available else paths

/-- C8: under every interleaving of registry operations the registry
never exceeds `MAX_PROJECTS` entries — `ensure` refuses an insert at the
cap — and warm-up caps its path list at `MAX_PROJECTS` minus the current
registry size. -/
theorem registry_never_exceeds_cap :
    (∀ reg, RegReach reg → reg.length ≤ MAX_PROJECTS) ∧
    (∀ reg paths, (warmCapped reg paths).length ≤ MAX_PROJECTS - reg.length) := by
  constructor
  · intro reg h
    induction h with
    | init => simp
    | step hreach hstep ih =>
      cases hstep with
      | ensureHit p h => exact ih
      | ensureRefuse p => exact ih
      | ensureAdd p h1 h2 => simpa using h2
      | removeProject p => exact le_trans (List.erase_sublist p _).length_le ih
      | autoIndexPop p => exact le_trans (List.erase_sublist p _).length_le ih
      | shutdown => simp
  · intro reg paths
    simp only [warmCapped]
    split
    · simp
    · next h => omega

/-- Witness for `registry_never_exceeds_cap` at a concrete reachable
registry of one project. -/
theorem registry_never_exceeds_cap_witness :
    (["proj1"] : List String).length ≤ MAX_PROJECTS :=
  registry_never_exceeds_cap.1 ["proj1"]
    (RegReach.step RegReach.init (RegStep.ensureAdd [] "proj1" (by simp) (by decide)))

/-! ## server.py: auto-index leader retry and the two failure messages

`_auto_index_project_single_flight` (server.py lines 334-408).  The
leader runs `index_all` with bounded retry; the outcome of the attempt
numbered `n` (1-based, as in the source's `range(1, MAX+1)`) is a
parameter (`some status` = returned, `none` = raised).  Error strings are
the messages passed to `_error_response` (which wraps them into a JSON
`{"error": …}` envelope). -/

def AUTO_INDEX_MAX_ATTEMPTS : Nat := 2

/-- The leader's final-failure message (server.py lines 398-400 and
404-406). -/
def autoIndexFailureMsg : String :=
  "Failed to auto-index project on first search. Check server logs for details."

/-- The follower's message when the registry holds no state after the
notification fires (server.py lines 352-354). -/
def followerFailureMsg : String :=
  "Auto-indexing by a concurrent request failed. Retry your search."

/-- The leader's retry loop (server.py lines 364-400), recursing over the
remaining attempt numbers `range(1, AUTO_INDEX_MAX_ATTEMPTS+1)`.  Returns
the result, the number of `index_all` invocations made, and the registry
after the call (the partial ProjectState is popped on final failure). -/
def leaderAttempts (outcomes : Nat → Option IndexStatus) (reg : List String)
    (path : String) : List Nat → Nat → Except String IndexStatus × Nat × List String
  | [], count => (.error "Unexpected end of retry loop", count, reg)
  | attempt :: rest, count =>
    match outcomes attempt with
    | some status => (.ok status, count + 1, reg)
    | none =>
      if rest = [] then (.error autoIndexFailureMsg, count + 1, reg.erase path)
      else leaderAttempts outcomes reg path rest (count + 1)

/-- The leader's whole retry phase, entered with the ProjectState for
`path` already registered by `_ensure_project_initialized`. -/
def leaderAutoIndex (outcomes : Nat → Option IndexStatus) (reg : List String)
    (path : String) : Except String IndexStatus × Nat × List String :=
  leaderAttempts outcomes reg path (List.range' 1 AUTO_INDEX_MAX_ATTEMPTS) 0

/-- A follower's read of the registry after the leader's notification
fires (server.py lines 347-355): the state when present, else the
follower error. -/
def followerResult (reg : List String) (path : String) : Except String Unit :=
  if path ∈ reg then .ok () else .error followerFailureMsg

/-- C2 (amended): when every `index_all` attempt fails, the leader
invokes `index_all` exactly `AUTO_INDEX_MAX_ATTEMPTS = 2` times and the
partial ProjectState is removed from the registry; but the error messages
are not uniform: the leader's callers get
"Failed to auto-index project on first search. Check server logs for
details." while followers observing the absent state get
"Auto-indexing by a concurrent request failed. Retry your search.". -/
theorem leader_failure_behaviour (outcomes : Nat → Option IndexStatus)
    (reg : List String) (path : String)
    (hfail : ∀ n, outcomes n = none) (hnd : reg.Nodup) :
    leaderAutoIndex outcomes reg path
      = (.error autoIndexFailureMsg, AUTO_INDEX_MAX_ATTEMPTS, reg.erase path) ∧
    path ∉ reg.erase path ∧
    followerResult (reg.erase path) path = .error followerFailureMsg := by
  have hne : path ∉ reg.erase path := hnd.not_mem_erase
  refine ⟨?_, hne, ?_⟩
  · have h2 : List.range' 1 AUTO_INDEX_MAX_ATTEMPTS = [1, 2] := rfl
    simp [leaderAutoIndex, h2, leaderAttempts, hfail 1, hfail 2, AUTO_INDEX_MAX_ATTEMPTS]
  · simp [followerResult, hne]

/-- Witness for `leader_failure_behaviour` at a concrete registry. -/
theorem leader_failure_behaviour_witness :
    leaderAutoIndex (fun _ => none) ["P"] "P"
      = (.error autoIndexFailureMsg, AUTO_INDEX_MAX_ATTEMPTS, (["P"] : List String).erase "P") :=
  (leader_failure_behaviour (fun _ => none) ["P"] "P" (fun _ => rfl) (by decide)).1

/-- C2 counterexample: after a failed leader run, a follower's error
message is not the claimed uniform "Failed to auto-index project on first
search" — it differs both from that string and from the leader's actual
message. -/
theorem follower_error_message_differs :
    followerResult ((["P"] : List String).erase "P") "P" = .error followerFailureMsg ∧
    ¬ followerFailureMsg = autoIndexFailureMsg ∧
    ¬ followerFailureMsg = "Failed to auto-index project on first search" :=
  ⟨rfl, by decide, by decide⟩

/-! ## server.py: single-flight auto-indexing as a labelled state machine

Per-path projection of `_auto_index_project_single_flight` together with
`_finish_single_flight_indexing` (server.py lines 324-408), for one fixed
cold path P.  A caller's phases:

* `start` — about to run the `async with app_ctx._lock` block (lines
  339-345);
* `follower e` — found `_indexing_events[P] = e` registered and is
  awaiting `e.wait()` (lines 347-349);
* `leaderIndexing e` — registered the fresh event `e` and is inside the
  try block: `_ensure_project_initialized` plus the `index_all` retry
  loop (lines 357-400);
* `leaderReleasing e` — left the try block (success or failure) and is
  about to run the `finally` (`_finish_single_flight_indexing`, lines
  324-331: pop the map entry if it is still `e`, then `e.set()`);
* `done` — returned.

The lock-held block is one atomic step (`acquireFollower` /
`acquireLeader`); `asyncio.Event` identities are modelled by the fresh
counter `nextEvent`; `fired` is the set of events whose `set()` ran.  New
concurrent searches may `arrive` at any time. -/

inductive CallerPhase
  | start
  | follower (e : Nat)
  | leaderIndexing (e : Nat)
  | leaderReleasing (e : Nat)
  | done
  deriving Repr, DecidableEq

structure FlightState where
  event : Option Nat
  fired : List Nat
  callers : List CallerPhase
  nextEvent : Nat
  deriving Repr, DecidableEq

/-- One scheduler step of one caller (or the arrival of a new caller). -/
inductive FlightStep : FlightState → FlightState → Prop
  | arrive (s : FlightState) :
      FlightStep s { s with callers := s.callers ++ [.start] }
  | acquireFollower (s : FlightState) (pre post : List CallerPhase) (e : Nat)
      (he : s.event = some e) (hc : s.callers = pre ++ .start :: post) :
      FlightStep s { s with callers := pre ++ .follower e :: post }
  | acquireLeader (s : FlightState) (pre post : List CallerPhase)
      (he : s.event = none) (hc : s.callers = pre ++ .start :: post) :
      FlightStep s { s with event := some s.nextEvent,
                            nextEvent := s.nextEvent + 1,
                            callers := pre ++ .leaderIndexing s.nextEvent :: post }
  | leaderFinish (s : FlightState) (pre post : List CallerPhase) (e : Nat)
      (hc : s.callers = pre ++ .leaderIndexing e :: post) :
      FlightStep s { s with callers := pre ++ .leaderReleasing e :: post }
  | leaderRelease (s : FlightState) (pre post : List CallerPhase) (e : Nat)
      (hc : s.callers = pre ++ .leaderReleasing e :: post) :
      FlightStep s { s with event := if s.event = some e then none else s.event,
                            fired := e :: s.fired,
                            callers := pre ++ .done :: post }
  | followerWake (s : FlightState) (pre post : List CallerPhase) (e : Nat)
      (he : e ∈ s.fired) (hc : s.callers = pre ++ .follower e :: post) :
      FlightStep s { s with callers := pre ++ .done :: post }

/-- `n` concurrent searches against the cold path, none started yet. -/
def initFlight (n : Nat) : FlightState :=
  ⟨none, [], List.replicate n .start, 0⟩

inductive FlightReach (n : Nat) : FlightState → Prop
  | init : FlightReach n (initFlight n)
  | step {s t : FlightState} : FlightReach n s → FlightStep s t → FlightReach n t

/-- A caller holding the single-flight registration: inside the try block
or its finally — in particular, any caller whose `index_all` is in
flight. -/
def isActiveLeader : CallerPhase → Bool
  | .leaderIndexing _ => true
  | .leaderReleasing _ => true
  | _ => false

def leaderEvt : CallerPhase → Option Nat
  | .leaderIndexing e => some e
  | .leaderReleasing e => some e
  | _ => none

/-- The inductive invariant: no registered notification means no active
leader; a registered notification `e` means at most one active leader,
and every active leader carries `e`. -/
def FlightInv (s : FlightState) : Prop :=
  match s.event with
  | none => s.callers.countP isActiveLeader = 0
  | some e => s.callers.countP isActiveLeader ≤ 1 ∧
      ∀ c ∈ s.callers, isActiveLeader c = true → leaderEvt c = some e

theorem countP_decomp (p : CallerPhase → Bool) (pre post : List CallerPhase)
    (x : CallerPhase) :
    (pre ++ x :: post).countP p
      = pre.countP p + post.countP p + (if p x then 1 else 0) := by
  by_cases h : p x <;> simp [List.countP_append, List.countP_cons, h] <;> omega

theorem flightInv_step {s t : FlightState} (hinv : FlightInv s)
    (hstep : FlightStep s t) : FlightInv t := by
  cases hstep with
  | arrive =>
    unfold FlightInv at hinv ⊢
    cases he : s.event with
    | none =>
      rw [he] at hinv
      simpa [List.countP_append, isActiveLeader] using hinv
    | some e =>
      rw [he] at hinv
      refine ⟨by simpa [List.countP_append, isActiveLeader] using hinv.1, ?_⟩
      intro c hc hact
      rcases List.mem_append.mp hc with h1 | h2
      · exact hinv.2 c h1 hact
      · rw [List.mem_singleton.mp h2] at hact
        exact absurd hact (by simp [isActiveLeader])
  | acquireFollower pre post e he hc =>
    unfold FlightInv at hinv ⊢
    rw [he] at hinv ⊢
    rw [hc] at hinv
    refine ⟨?_, ?_⟩
    · rw [countP_decomp]
      rw [countP_decomp] at hinv
      simpa [isActiveLeader] using hinv.1
    · intro c hcm hact
      rcases List.mem_append.mp hcm with h1 | h2
      · exact hinv.2 c (List.mem_append_left _ h1) hact
      · rcases List.mem_cons.mp h2 with h3 | h4
        · rw [h3] at hact
          exact absurd hact (by simp [isActiveLeader])
        · exact hinv.2 c (List.mem_append_right _ (List.mem_cons_of_mem _ h4)) hact
  | acquireLeader pre post he hc =>
    unfold FlightInv at hinv ⊢
    rw [he] at hinv
    rw [hc] at hinv
    rw [countP_decomp] at hinv
    simp only [isActiveLeader, if_neg Bool.false_ne_true, if_false] at hinv
    have hpre : pre.countP isActiveLeader = 0 := by omega
    have hpost : post.countP isActiveLeader = 0 := by omega
    refine ⟨?_, ?_⟩
    · rw [countP_decomp]
      simp [isActiveLeader, hpre, hpost]
    · intro c hcm hact
      rcases List.mem_append.mp hcm with h1 | h2
      · exact absurd hact (by simpa using List.countP_eq_zero.mp hpre c h1)
      · rcases List.mem_cons.mp h2 with h3 | h4
        · simp [h3, leaderEvt]
        · exact absurd hact (by simpa using List.countP_eq_zero.mp hpost c h4)
  | leaderFinish pre post e hc =>
    unfold FlightInv at hinv ⊢
    cases he : s.event with
    | none =>
      rw [he] at hinv
      rw [hc, countP_decomp] at hinv
      simp [isActiveLeader] at hinv
    | some e' =>
      rw [he] at hinv
      have hmid : CallerPhase.leaderIndexing e ∈ s.callers := by
        rw [hc]; exact List.mem_append_right _ (List.mem_cons_self _ _)
      have hee : e = e' := by
        have := hinv.2 _ hmid (by simp [isActiveLeader])
        simpa [leaderEvt] using this
      subst hee
      refine ⟨?_, ?_⟩
      · rw [countP_decomp]
        have := hinv.1
        rw [hc, countP_decomp] at this
        simpa [isActiveLeader] using this
      · intro c hcm hact
        rcases List.mem_append.mp hcm with h1 | h2
        · exact hinv.2 c (by rw [hc]; exact List.mem_append_left _ h1) hact
        · rcases List.mem_cons.mp h2 with h3 | h4
          · simp [h3, leaderEvt]
          · exact hinv.2 c
              (by rw [hc]; exact List.mem_append_right _ (List.mem_cons_of_mem _ h4)) hact
  | leaderRelease pre post e hc =>
    unfold FlightInv at hinv ⊢
    cases he : s.event with
    | none =>
      rw [he] at hinv
      rw [hc, countP_decomp] at hinv
      simp [isActiveLeader] at hinv
    | some e' =>
      rw [he] at hinv
      have hmid : CallerPhase.leaderReleasing e ∈ s.callers := by
        rw [hc]; exact List.mem_append_right _ (List.mem_cons_self _ _)
      have hee : e = e' := by
        have := hinv.2 _ hmid (by simp [isActiveLeader])
        simpa [leaderEvt] using this
      subst hee
      have hcount := hinv.1
      rw [hc, countP_decomp] at hcount
      simp only [isActiveLeader, if_true] at hcount
      have hev : (if (some e : Option Nat) = some e then (none : Option Nat) else some e)
          = none := by simp
      have hgoal : List.countP isActiveLeader (pre ++ CallerPhase.done :: post) = 0 := by
        rw [countP_decomp]
        simp only [isActiveLeader, Bool.false_eq_true, if_false]
        omega
      rw [hev]
      exact hgoal
  | followerWake pre post e he hc =>
    unfold FlightInv at hinv ⊢
    cases hev : s.event with
    | none =>
      rw [hev] at hinv
      rw [hc, countP_decomp] at hinv
      rw [countP_decomp]
      simpa [isActiveLeader] using hinv
    | some e' =>
      rw [hev] at hinv
      refine ⟨?_, ?_⟩
      · rw [countP_decomp]
        have := hinv.1
        rw [hc, countP_decomp] at this
        simpa [isActiveLeader] using this
      · intro c hcm hact
        rcases List.mem_append.mp hcm with h1 | h2
        · exact hinv.2 c (by rw [hc]; exact List.mem_append_left _ h1) hact
        · rcases List.mem_cons.mp h2 with h3 | h4
          · rw [h3] at hact
            exact absurd hact (by simp [isActiveLeader])
          · exact hinv.2 c
              (by rw [hc]; exact List.mem_append_right _ (List.mem_cons_of_mem _ h4)) hact

theorem flightInv_reach (n : Nat) {s : FlightState} (h : FlightReach n s) :
    FlightInv s := by
  induction h with
  | init =>
    unfold FlightInv initFlight
    exact List.countP_eq_zero.mpr fun a ha => by
      rw [List.eq_of_mem_replicate ha]; simp [isActiveLeader]
  | step hr hs ih => exact flightInv_step ih hs

/-- C1: in every state reachable from `n` concurrent searches of a cold
path, at most one caller holds the single-flight registration — so at
most one `index_all` execution is in flight for the path at a time; when
no notification is registered, no leader is active; and the only step
that creates a new active leader is the lock-held acquisition by a caller
still in `start` phase finding no registered notification — a follower is
never converted into a leader and never starts its own `index_all`. -/
theorem single_flight_auto_index (n : Nat) (s : FlightState) (h : FlightReach n s) :
    s.callers.countP isActiveLeader ≤ 1 ∧
    (s.event = none → s.callers.countP isActiveLeader = 0) ∧
    (∀ t, FlightStep s t →
      s.callers.countP isActiveLeader < t.callers.countP isActiveLeader →
      s.event = none ∧ ∃ pre post, s.callers = pre ++ CallerPhase.start :: post ∧
        t.callers = pre ++ CallerPhase.leaderIndexing s.nextEvent :: post) := by
  have hinv := flightInv_reach n h
  refine ⟨?_, ?_, ?_⟩
  · unfold FlightInv at hinv
    cases he : s.event with
    | none =>
      rw [he] at hinv
      omega
    | some e =>
      rw [he] at hinv
      exact hinv.1
  · intro he
    unfold FlightInv at hinv
    rw [he] at hinv
    exact hinv
  · intro t hstep hlt
    cases hstep with
    | arrive =>
      exfalso
      simp [List.countP_append, isActiveLeader] at hlt
    | acquireFollower pre post e he hc =>
      exfalso
      simp only [hc, countP_decomp, isActiveLeader, Bool.false_eq_true, if_false] at hlt
      omega
    | acquireLeader pre post he hc =>
      exact ⟨he, pre, post, hc, rfl⟩
    | leaderFinish pre post e hc =>
      exfalso
      simp only [hc, countP_decomp, isActiveLeader, eq_self_iff_true, if_true] at hlt
      omega
    | leaderRelease pre post e hc =>
      exfalso
      simp only [hc, countP_decomp, isActiveLeader, Bool.false_eq_true, if_false,
        eq_self_iff_true, if_true] at hlt
      omega
    | followerWake pre post e he hc =>
      exfalso
      simp only [hc, countP_decomp, isActiveLeader, Bool.false_eq_true, if_false] at hlt
      omega

/-- Witness for `single_flight_auto_index` at the initial state of two
concurrent searches. -/
theorem single_flight_auto_index_witness :
    (initFlight 2).callers.countP isActiveLeader ≤ 1 :=
  (single_flight_auto_index 2 (initFlight 2) FlightReach.init).1

end Lgrep
